import Mathlib

/-!
Verification of the hybrid retrieval/ranking engine of the regulations
question-answering backend (`RegulationsProvider` and
`EnhancedRegulationsProvider` in
`backend/app/mcp/providers/`).

The Python code is shallowly embedded: Python dicts (which iterate in
insertion order) become association lists `List (String × _)`, Python
`set` becomes `Finset String` (its only uses are cardinality,
intersection and membership, which are order-independent; the one place
the code builds a list out of a set, `list(set(...))`, is modelled as a
first-occurrence deduplication), Python floats become `ℚ` (all constants
in the code are decimal literals, exactly representable), and the single
external LLM call performed by the tree-reasoning strategy is modelled
as an oracle parameter of type `Except String (List KnowledgeChunk)`
(the chunks the call would yield, or the exception/parse failure it
raised).  All definitions are executable; Python string primitives are
modelled by structurally recursive functions on character lists so that
concrete instances evaluate inside the kernel.
-/

/-- Model of Python string slicing `s[n:]` (by characters). -/
def pyDrop (s : String) (n : ℕ) : String :=
  String.mk (s.toList.drop n)

/-- Model of Python `s.lower()`. -/
def pyLower (s : String) : String :=
  String.mk (s.toList.map Char.toLower)

/-- Model of Python `s.strip()`: drop whitespace from both ends. -/
def pyStrip (s : String) : String :=
  String.mk (((s.toList.dropWhile Char.isWhitespace).reverse.dropWhile
    Char.isWhitespace).reverse)

/-- Model of Python `s.startswith(pre)`. -/
def pyStartsWith (s pre : String) : Bool :=
  pre.toList.isPrefixOf s.toList

/-- Character-list substring test, used to model Python `sub in s`. -/
def isSubChars (pat : List Char) : List Char → Bool
  | [] => pat.isEmpty
  | c :: rest => pat.isPrefixOf (c :: rest) || isSubChars pat rest

/-- Model of Python `sub in s` (substring containment). -/
def pyContains (sub s : String) : Bool :=
  isSubChars sub.toList s.toList

/-- Split a character list at every separator character satisfying `p`,
keeping empty pieces (the behaviour of Python `s.split(sep)` for a
one-character `sep`). -/
def splitCharsAux (p : Char → Bool) : List Char → List Char → List (List Char)
  | [], acc => [acc.reverse]
  | c :: cs, acc =>
      if p c then acc.reverse :: splitCharsAux p cs []
      else splitCharsAux p cs (c :: acc)

/-- Model of Python `s.split('\n')`. -/
def pySplitNl (s : String) : List String :=
  (splitCharsAux (fun c => c == '\n') s.toList []).map String.mk

/-- Model of Python `s.split()`: split on runs of whitespace, dropping
empty pieces. -/
def pysplit (s : String) : List String :=
  ((splitCharsAux Char.isWhitespace s.toList []).map String.mk).filter
    (fun t => t ≠ "")

/-- Model of Python `set(s.split())`. -/
def pywords (s : String) : Finset String :=
  (pysplit s).toFinset

/-- Model of Python `d.get(k)` on an insertion-ordered dict represented
as an association list. -/
def lookupD {α : Type} (l : List (String × α)) (k : String) : Option α :=
  (l.find? (fun p => p.1 == k)).map (fun p => p.2)

/-- Model of Python `list(set(xs))`: deduplication keeping the first
occurrence of each element (a deterministic stand-in for the
unspecified set iteration order). -/
def dedupFirst (l : List String) : List String :=
  l.foldl (fun acc x => if acc.contains x then acc else acc ++ [x]) []

/-- A parsed chunk of a document (the dicts produced by
`RegulationsProvider._parse_chunks`). -/
structure Chunk where
  id : String
  title : String
  content : String
  parent : String
  line_start : ℕ
  line_end : ℕ
deriving DecidableEq, Repr

/-- A section declared in `index.json` (`{"id": ..., "articles": [...]}`);
article numbers are kept as the strings `str(a)` the code converts them
to. -/
structure SectionMeta where
  id : String
  articles : List String
deriving DecidableEq, Repr

/-- `DocumentMeta` dataclass of `regulations_provider.py`. -/
structure DocumentMeta where
  id : String
  file : String
  title : String
  description : String
  keywords : List String
  sections : List SectionMeta
  effective_date : String
  content : String
  chunks : List Chunk
deriving DecidableEq, Repr

/-- `KnowledgeChunk` result unit (`base_knowledge_provider.py`); the
metadata dict is an insertion-ordered association list. -/
structure KnowledgeChunk where
  content : String
  source : String
  metadata : List (String × String)
  score : ℚ
deriving DecidableEq, Repr

/-- `RetrievalResult` (`base_knowledge_provider.py`). -/
structure RetrievalResult where
  chunks : List KnowledgeChunk
  query : String
  total_found : ℕ
deriving DecidableEq, Repr

/-- In-memory state of a loaded `RegulationsProvider`: `_documents`,
`_query_mappings` and `_all_keywords` (all insertion-ordered dicts). -/
structure RegulationsState where
  documents : List (String × DocumentMeta)
  query_mappings : List (String × List String)
  all_keywords : List (String × List String)
deriving DecidableEq, Repr

/-- A pre-extracted entity record (`entities.json`); the dict accesses
`entity.get("class", ...)`, `entity.get("text", "")` and
`entity.get("attributes", {})` are modelled with `Option`/list fields. -/
structure Entity where
  class_ : Option String
  text : Option String
  attributes : List (String × String)
deriving DecidableEq, Repr

/-- In-memory state of a loaded `EnhancedRegulationsProvider`: the
wrapped legacy provider, `_entities`, and the `_has_trees` /
`_has_entities` flags (the tree JSON itself is not needed because the
tree strategy's outcome is abstracted as an oracle, see
`enhancedRetrieve`). -/
structure EnhancedState where
  legacy : RegulationsState
  entities : List (String × List Entity)
  has_trees : Bool
  has_entities : Bool
deriving DecidableEq, Repr

/-- Chunk emission step shared by the loop body and the epilogue of
`RegulationsProvider._parse_chunks` (lines 182-192 and 204-214): if the
accumulated `current_chunk` is nonempty and its text strips to something
nonempty, append a chunk covering lines `[start, iEnd]`. -/
def emitChunk (doc_id h1 h2 : String) (cur : List String) (start iEnd : ℕ)
    (acc : List Chunk) : List Chunk :=
  if cur.isEmpty then acc
  else
    let chunk_text := pyStrip (String.intercalate "\n" cur)
    if chunk_text = "" then acc
    else acc ++ [{ id := doc_id ++ "_" ++ toString acc.length,
                   title := if h2 ≠ "" then h2 else h1,
                   content := chunk_text,
                   parent := h1,
                   line_start := start,
                   line_end := iEnd }]

/-- The line loop of `RegulationsProvider._parse_chunks` (lines 174-201):
`i` is the index of the next line, `h1`/`h2` are
`current_h1`/`current_h2`, `cur` is `current_chunk`, `start` is
`chunk_start_line`. -/
def parseChunksGo (doc_id : String) :
    List String → ℕ → String → String → List String → ℕ → List Chunk →
      List Chunk
  | [], i, h1, h2, cur, start, acc =>
      emitChunk doc_id h1 h2 cur start (i - 1) acc
  | line :: rest, i, h1, h2, cur, start, acc =>
      if pyStartsWith line "# " && !(pyStartsWith line "## ") then
        parseChunksGo doc_id rest (i+1) (pyStrip (pyDrop line 2)) h2 cur start
          acc
      else if pyStartsWith line "## " then
        parseChunksGo doc_id rest (i+1) h1 (pyStrip (pyDrop line 3)) [line] i
          (emitChunk doc_id h1 h2 cur start (i - 1) acc)
      else if pyStartsWith line "### " then
        parseChunksGo doc_id rest (i+1) h1 h2 (cur ++ [line]) start acc
      else
        parseChunksGo doc_id rest (i+1) h1 h2 (cur ++ [line]) start acc

/-- `RegulationsProvider._parse_chunks`. -/
def _parse_chunks (content : String) (doc_id : String) : List Chunk :=
  parseChunksGo doc_id (pySplitNl content) 0 "" "" [] 0 []

/-- `coversFrom start cs n = true` iff the line ranges of `cs`, in order,
cover the lines `start, ..., n-1` exactly once: each range begins where
the previous one ended plus one, is nonempty, and the last one ends at
`n-1`.  `coversFrom 0 cs n` is the "no gaps, no overlaps, every line
exactly once" property of the spec for a document of `n` lines. -/
def coversFrom : ℕ → List Chunk → ℕ → Bool
  | start, [], n => start == n
  | start, c :: rest, n =>
      (c.line_start == start) && (decide (c.line_start ≤ c.line_end))
        && coversFrom (c.line_end + 1) rest n

/-- `rangesOk lo cs = true` iff the line ranges of `cs` are valid
(`line_start ≤ line_end`), in strictly increasing order, pairwise
disjoint, and all at or above `lo`; unlike `coversFrom` it permits
gaps. -/
def rangesOk : ℕ → List Chunk → Bool
  | _, [] => true
  | lo, c :: rest =>
      (decide (lo ≤ c.line_start)) && (decide (c.line_start ≤ c.line_end))
        && rangesOk (c.line_end + 1) rest

example : _parse_chunks "\n## a\nbody" "d" =
    [{ id := "d_0", title := "a", content := "## a\nbody", parent := "",
       line_start := 1, line_end := 2 }] := by decide

/-- `RegulationsProvider._get_bigrams`: adjacent word pairs. -/
def _get_bigrams (words : List String) : List String :=
  (words.zip words.tail).map (fun p => p.1 ++ " " ++ p.2)

/-- The query/chunk text-overlap part of
`RegulationsProvider._calculate_relevance_score` (lines 417-459): title
bigram and word overlap, content bigram and word overlap, and the exact
phrase bonus. -/
def overlapScore (query : String) (chunk : Chunk) : ℚ :=
  let query_lower := pyLower query
  let query_word_list := pysplit query_lower
  let query_words := query_word_list.toFinset
  let query_bigrams := (_get_bigrams query_word_list).toFinset
  let title_word_list := pysplit (pyLower chunk.title)
  let title_words := title_word_list.toFinset
  let title_bigrams := (_get_bigrams title_word_list).toFinset
  let content_lower := pyLower chunk.content
  let content_word_list := pysplit content_lower
  let content_words := content_word_list.toFinset
  let content_bigrams := (_get_bigrams content_word_list).toFinset
  let s1 := if query_bigrams ≠ ∅ ∧ title_bigrams ≠ ∅ ∧
      0 < (query_bigrams ∩ title_bigrams).card then
      min (((query_bigrams ∩ title_bigrams).card : ℚ) /
        (query_bigrams.card : ℚ)) 1 * 0.10
    else 0
  let s2 := if query_words ≠ ∅ then
      ((query_words ∩ title_words).card : ℚ) / (query_words.card : ℚ) * 0.05
    else 0
  let s3 := if query_bigrams ≠ ∅ ∧ content_bigrams ≠ ∅ ∧
      0 < (query_bigrams ∩ content_bigrams).card then
      min (((query_bigrams ∩ content_bigrams).card : ℚ) /
        (query_bigrams.card : ℚ)) 1 * 0.10
    else 0
  let s4 := if query_words ≠ ∅ ∧ 0 < (query_words ∩ content_words).card then
      min (((query_words ∩ content_words).card : ℚ) /
        (query_words.card : ℚ)) 1 * 0.10
    else 0
  let s5 := if pyContains query_lower content_lower then (0.05 : ℚ) else 0
  s1 + s2 + s3 + s4 + s5

/-- `RegulationsProvider._calculate_relevance_score` (lines 384-461):
the three document-level boolean bonuses plus the text-overlap signals
(`overlapScore`, the code's lines 417-459, the addition reassociated),
clamped by `min(score, 1.0)`. -/
def _calculate_relevance_score (query : String) (chunk : Chunk)
    (is_mapped has_keyword in_target_section : Bool) : ℚ :=
  min ((if in_target_section then (0.35 : ℚ) else 0) +
       (if is_mapped then (0.15 : ℚ) else 0) +
       (if has_keyword then (0.10 : ℚ) else 0) +
       overlapScore query chunk) 1

/-- One attempt of the regex `Điều\s+(\d+)` at the head of the
character list: the literal `Điều`, then at least one whitespace
character, then the maximal nonempty run of digits (the capture). -/
def matchArticleAt (l : List Char) : Option String :=
  let dieu := "Điều".toList
  if dieu.isPrefixOf l then
    let rest := l.drop dieu.length
    let ws := rest.takeWhile Char.isWhitespace
    if ws.isEmpty then none
    else
      let ds := (rest.drop ws.length).takeWhile Char.isDigit
      if ds.isEmpty then none else some (String.mk ds)
  else none

/-- Model of `re.search(r'Điều\s+(\d+)', title)`: leftmost match. -/
def searchArticle : List Char → Option String
  | [] => none
  | c :: rest =>
      match matchArticleAt (c :: rest) with
      | some s => some s
      | none => searchArticle rest

/-- `RegulationsProvider._chunk_matches_section` (lines 342-365). -/
def _chunk_matches_section (chunk : Chunk) (doc_id : String)
    (target_sections : List String)
    (section_articles : List (String × List String)) : Bool :=
  if target_sections.isEmpty then false
  else
    match searchArticle chunk.title.toList with
    | none => false
    | some num =>
        target_sections.any fun sid =>
          ((lookupD section_articles (doc_id ++ "#" ++ sid)).getD []).contains
            num

/-- Model of `ref.split('#', 1)`: split at the first `#` only. -/
def splitRefOnce (ref : String) : String × Option String :=
  match ref.splitOn "#" with
  | [] => (ref, none)
  | [d] => (d, none)
  | d :: rest => (d, some (String.intercalate "#" rest))

/-- One iteration of the inner loop of
`RegulationsProvider._get_mapped_sections` (lines 332-339): ensure the
referenced document has an entry, then append the section id if it is
nonempty and not yet present. -/
def addRef (m : List (String × List String)) (ref : String) :
    List (String × List String) :=
  let p := splitRefOnce ref
  let m1 := if (m.find? (fun q => q.1 == p.1)).isSome then m
            else m ++ [(p.1, [])]
  match p.2 with
  | none => m1
  | some s =>
      if s = "" then m1
      else m1.map fun q =>
        if q.1 = p.1 then (if q.2.contains s then q else (q.1, q.2 ++ [s]))
        else q

/-- `RegulationsProvider._get_mapped_sections` (lines 321-340): the
curated query-phrase mappings whose key occurs as a substring of the
(lower-cased) query, as a dict doc_id → matched section ids. -/
def _get_mapped_sections (st : RegulationsState) (query : String) :
    List (String × List String) :=
  st.query_mappings.foldl
    (fun m kv => if pyContains kv.1 query then kv.2.foldl addRef m else m) []

/-- `RegulationsProvider._get_keyword_matched_documents` (lines 367-377):
documents one of whose keywords occurs in the query or inside one of the
query's words. -/
def _get_keyword_matched_documents (st : RegulationsState) (query : String) :
    List String :=
  let query_words := pysplit query
  dedupFirst (st.all_keywords.foldl
    (fun matched kw =>
      if pyContains kw.1 query ||
          query_words.any (fun w => pyContains kw.1 w) then
        matched ++ kw.2
      else matched) [])

/-- Model of the per-document filter test in both providers:
`filters and filters.get("doc_id") and filters["doc_id"] != doc_id`
(note the Python truthiness: an empty-string filter value skips
nothing).  `filters` is the optional `doc_id` entry of the filter
dict. -/
def filterSkips (filters : Option String) (doc_id : String) : Bool :=
  match filters with
  | none => false
  | some v => v != "" && v != doc_id

/-- The candidate-building part of `RegulationsProvider.retrieve`
(lines 243-309): every chunk of every relevant, unfiltered document
with a strictly positive relevance score, as `KnowledgeChunk`s, in
document/chunk order. -/
def legacyScoredChunks (st : RegulationsState) (query : String)
    (filters : Option String) : List KnowledgeChunk :=
  let query_lower := pyLower query
  let mapped_sections := _get_mapped_sections st query_lower
  let keyword_docs := _get_keyword_matched_documents st query_lower
  let relevant0 := dedupFirst ((mapped_sections.map Prod.fst) ++ keyword_docs)
  let relevant_doc_ids :=
    if relevant0.isEmpty then st.documents.map Prod.fst else relevant0
  let section_articles := (relevant_doc_ids.map fun doc_id =>
    match lookupD st.documents doc_id with
    | none => []
    | some doc =>
        doc.sections.map fun sec => (doc_id ++ "#" ++ sec.id, sec.articles)).flatten
  (relevant_doc_ids.map fun doc_id =>
    match lookupD st.documents doc_id with
    | none => []
    | some doc =>
        if filterSkips filters doc_id then []
        else
          let target_sections := (lookupD mapped_sections doc_id).getD []
          doc.chunks.filterMap fun chunk =>
            let in_target :=
              _chunk_matches_section chunk doc_id target_sections
                section_articles
            let score := _calculate_relevance_score query_lower chunk
              ((mapped_sections.find? (fun p => p.1 == doc_id)).isSome)
              (keyword_docs.contains doc_id) in_target
            if 0 < score then
              some { content := chunk.content,
                     source := doc.title ++ " - " ++ chunk.title,
                     metadata := [("doc_id", doc_id), ("chunk_id", chunk.id),
                                  ("title", chunk.title),
                                  ("parent", chunk.parent),
                                  ("effective_date", doc.effective_date)],
                     score := score }
            else none).flatten

/-- One insertion step of the stable descending sort by score that
models Python's `list.sort(key=lambda c: c.score, reverse=True)`: the
new element goes before the first element with a strictly smaller
score, hence after every earlier element with an equal score. -/
def insertByScore (c : KnowledgeChunk) :
    List KnowledgeChunk → List KnowledgeChunk
  | [] => [c]
  | x :: xs => if c.score < x.score then x :: insertByScore c xs
               else c :: x :: xs

/-- Stable sort by score, descending (model of Python's stable
`sort(key=..., reverse=True)`). -/
def sortByScoreDesc : List KnowledgeChunk → List KnowledgeChunk
  | [] => []
  | c :: rest => insertByScore c (sortByScoreDesc rest)

/-- `RegulationsProvider.retrieve` (lines 226-319): score the chunks of
the relevant documents, sort by score descending, truncate to `top_k`,
and report the pre-truncation candidate count as `total_found`. -/
def legacyRetrieve (st : RegulationsState) (query : String) (top_k : ℕ)
    (filters : Option String) : RetrievalResult :=
  let scored := legacyScoredChunks st query filters
  { chunks := (sortByScoreDesc scored).take top_k,
    query := query,
    total_found := scored.length }

/-- The fixed keyword → rule-type bonus table of
`EnhancedRegulationsProvider._score_entity` (lines 259-270). -/
def keyword_bonuses : List (String × List String) :=
  [("phép", ["leave", "annual_leave", "prorated_leave", "leave_accrual",
             "leave_credit", "leave_advance"]),
   ("thử việc", ["probation"]),
   ("chính thức", ["probation"]),
   ("thai sản", ["maternity", "paternity"]),
   ("kết hôn", ["special_leave", "wedding"]),
   ("giờ làm", ["working_hours", "working_days"]),
   ("đi muộn", ["lateness", "late_threshold"]),
   ("kỷ luật", ["disciplinary", "termination"]),
   ("vay", ["loan", "financial"])]

/-- `EnhancedRegulationsProvider._score_entity` (lines 232-276): word
overlap with the entity text (scaled to 0.3), attribute key/value
matches (0.15 each, capped at 0.4), the rule-type keyword bonus (+0.3
per matching table row), clamped by `min(score, 1.0)`.  `query` is the
lower-cased query, `query_words` its word set, as passed by the
caller. -/
def _score_entity (query : String) (query_words : Finset String)
    (entity : Entity) : ℚ :=
  let entity_words := pywords (pyLower (entity.text.getD ""))
  let text_overlap := (query_words ∩ entity_words).card
  let s1 := if text_overlap ≠ 0 then
      min ((text_overlap : ℚ) / ((max query_words.card 1 : ℕ) : ℚ)) 1 * 0.3
    else 0
  let attr_match_count := (entity.attributes.map fun p =>
    (if ∃ w ∈ query_words, pyContains w (pyLower p.2) then (1 : ℕ) else 0) +
    (if ∃ w ∈ query_words, pyContains w (pyLower p.1) then (1 : ℕ) else 0)).sum
  let s2 := if attr_match_count ≠ 0 then
      min ((attr_match_count : ℚ) * 0.15) 0.4
    else 0
  let rule_type := pyLower ((lookupD entity.attributes "rule_type").getD "")
  let s3 := (keyword_bonuses.map fun kb =>
    if pyContains kb.1 query ∧ kb.2.any (fun rt => pyContains rt rule_type)
    then (0.3 : ℚ) else 0).sum
  min (s1 + s2 + s3) 1

/-- The ordered "important" attribute keys of
`EnhancedRegulationsProvider._format_entity_as_context`. -/
def important_keys : List String :=
  ["rule_type", "condition", "duration", "amount", "calculation_method",
   "mechanism", "pay_status", "legal_reference", "restriction", "example"]

/-- `EnhancedRegulationsProvider._format_entity_as_context`
(lines 278-300): header line, then the important attributes present in
order, then the remaining attributes. -/
def _format_entity_as_context (entity : Entity) : String :=
  let head := "**[" ++ entity.class_.getD "Rule" ++ "]** " ++
    entity.text.getD ""
  let l1 := important_keys.filterMap fun key =>
    (lookupD entity.attributes key).map fun v => "  - " ++ key ++ ": " ++ v
  let l2 := (entity.attributes.filter
      (fun p => !(important_keys.contains p.1))).map
    fun p => "  - " ++ p.1 ++ ": " ++ p.2
  String.intercalate "\n" (head :: (l1 ++ l2))

/-- `EnhancedRegulationsProvider._entity_lookup` (lines 197-230): every
loaded entity of every unfiltered document whose score strictly exceeds
0.3, rendered as a `KnowledgeChunk`. -/
def _entity_lookup (est : EnhancedState) (query : String)
    (filters : Option String) : List KnowledgeChunk :=
  let query_lower := pyLower query
  let query_words := pywords query_lower
  (est.entities.map fun de =>
    if filterSkips filters de.1 then []
    else de.2.filterMap fun entity =>
      let score := _score_entity query_lower query_words entity
      if (0.3 : ℚ) < score then
        some { content := _format_entity_as_context entity,
               source := "Quy định (structured) - " ++
                 entity.class_.getD "Rule",
               metadata := [("doc_id", de.1),
                            ("entity_class", entity.class_.getD ""),
                            ("rule_type",
                             (lookupD entity.attributes "rule_type").getD ""),
                            ("source_type", "entity_lookup")],
               score := score }
      else none).flatten

/-- The word set a chunk is deduplicated on:
`set(chunk.content.lower().split())`. -/
def chunkWords (c : KnowledgeChunk) : Finset String :=
  pywords (pyLower c.content)

/-- The inner comparison of
`EnhancedRegulationsProvider._deduplicate_chunks` (lines 447-455): `c`
counts as a duplicate of `e` iff both word sets are nonempty (the code
`continue`s otherwise) and the overlap ratio
`|c ∩ e| / max(|c|, |e|)` strictly exceeds 0.6. -/
def isDupOf (c e : KnowledgeChunk) : Bool :=
  if chunkWords c = ∅ ∨ chunkWords e = ∅ then false
  else decide ((0.6 : ℚ) <
    ((chunkWords c ∩ chunkWords e).card : ℚ) /
      ((max (chunkWords c).card (chunkWords e).card : ℕ) : ℚ))

/-- The accept/discard loop of
`EnhancedRegulationsProvider._deduplicate_chunks` (lines 442-458):
`result` is the list accepted so far; each candidate is kept iff it is
a duplicate of no accepted chunk. -/
def dedupGo : List KnowledgeChunk → List KnowledgeChunk → List KnowledgeChunk
  | result, [] => result
  | result, c :: rest =>
      if result.any (fun e => isDupOf c e) then dedupGo result rest
      else dedupGo (result ++ [c]) rest

/-- `EnhancedRegulationsProvider._deduplicate_chunks` (lines 430-460):
lists of at most one chunk are returned unchanged; otherwise sort by
score descending (stable) and run the accept/discard loop. -/
def _deduplicate_chunks (chunks : List KnowledgeChunk) :
    List KnowledgeChunk :=
  if chunks.length ≤ 1 then chunks
  else dedupGo [] (sortByScoreDesc chunks)

/-- The legacy-result append loop of `EnhancedRegulationsProvider.retrieve`
(lines 173-179): each legacy chunk is appended to `all_chunks`, its
score multiplied by 0.7 when `all_chunks` is nonempty at that moment. -/
def appendLegacy (acc : List KnowledgeChunk) :
    List KnowledgeChunk → List KnowledgeChunk
  | [] => acc
  | c :: rest =>
      appendLegacy
        (acc ++ [if acc.isEmpty then c else { c with score := c.score * 0.7 }])
        rest

/-- The candidate list `all_chunks` built by
`EnhancedRegulationsProvider.retrieve` (lines 157-179) before
deduplication: entity-lookup chunks (when entities are loaded), then
the tree-reasoning chunks (when trees are loaded; `treeOutcome` is the
oracle modelling the `_tree_retrieve` LLM call, whose failure the
`try/except` turns into no contribution), then the legacy chunks with
the 0.7 scaling loop. -/
def enhancedPreChunks (est : EnhancedState)
    (treeOutcome : Except String (List KnowledgeChunk)) (query : String)
    (filters : Option String) : List KnowledgeChunk :=
  let entityChunks :=
    if est.has_entities then _entity_lookup est query filters else []
  let treeChunks :=
    if est.has_trees then
      match treeOutcome with
      | Except.ok cs => cs
      | Except.error _ => []
    else []
  appendLegacy (entityChunks ++ treeChunks)
    (legacyRetrieve est.legacy query 2 filters).chunks

/-- `EnhancedRegulationsProvider.retrieve` (lines 142-191): with no
enhanced data at all, delegate to the legacy provider with the same
arguments; otherwise merge the three strategies, deduplicate, sort by
score descending, truncate to `top_k` and report the pre-truncation
count.  The function is total: a failing tree oracle (`Except.error`)
never prevents a result. -/
def enhancedRetrieve (est : EnhancedState)
    (treeOutcome : Except String (List KnowledgeChunk)) (query : String)
    (top_k : ℕ) (filters : Option String) : RetrievalResult :=
  if !est.has_trees && !est.has_entities then
    legacyRetrieve est.legacy query top_k filters
  else
    let deduped := _deduplicate_chunks (enhancedPreChunks est treeOutcome
      query filters)
    { chunks := (sortByScoreDesc deduped).take top_k,
      query := query,
      total_found := deduped.length }

/-- Sortedness by score, descending (what Python's
`sort(key=lambda c: c.score, reverse=True)` establishes). -/
def SortedDesc (l : List KnowledgeChunk) : Prop :=
  l.Pairwise (fun a b => b.score ≤ a.score)

theorem insertByScore_perm (c : KnowledgeChunk) (l : List KnowledgeChunk) :
    (insertByScore c l).Perm (c :: l) := by
  induction l with
  | nil => simp [insertByScore]
  | cons x xs ih =>
    simp only [insertByScore]
    split
    · exact (ih.cons x).trans (List.Perm.swap c x xs)
    · exact List.Perm.refl _

theorem sortByScoreDesc_perm (l : List KnowledgeChunk) :
    (sortByScoreDesc l).Perm l := by
  induction l with
  | nil => exact List.Perm.refl _
  | cons c rest ih =>
    exact (insertByScore_perm c (sortByScoreDesc rest)).trans (ih.cons c)

theorem sortByScoreDesc_length (l : List KnowledgeChunk) :
    (sortByScoreDesc l).length = l.length :=
  (sortByScoreDesc_perm l).length_eq

theorem insertByScore_sorted (c : KnowledgeChunk) {l : List KnowledgeChunk}
    (h : SortedDesc l) : SortedDesc (insertByScore c l) := by
  induction l with
  | nil => simp [insertByScore, SortedDesc]
  | cons x xs ih =>
    have hx : ∀ b ∈ xs, b.score ≤ x.score :=
      (List.pairwise_cons.mp h).1
    have hxs : SortedDesc xs := (List.pairwise_cons.mp h).2
    simp only [insertByScore]
    split
    · rename_i hlt
      refine List.pairwise_cons.mpr ⟨?_, ih hxs⟩
      intro b hb
      rcases List.mem_cons.mp ((insertByScore_perm c xs).mem_iff.mp hb) with
        hbc | hbxs
      · exact hbc ▸ le_of_lt hlt
      · exact hx b hbxs
    · rename_i hge
      refine List.pairwise_cons.mpr ⟨?_, h⟩
      intro b hb
      rcases List.mem_cons.mp hb with hbx | hbxs
      · exact hbx ▸ not_lt.mp hge
      · exact le_trans (hx b hbxs) (not_lt.mp hge)

theorem sortByScoreDesc_sorted (l : List KnowledgeChunk) :
    SortedDesc (sortByScoreDesc l) := by
  induction l with
  | nil => simp [sortByScoreDesc, SortedDesc]
  | cons c rest ih => exact insertByScore_sorted c ih

theorem sortByScoreDesc_sorted_id {l : List KnowledgeChunk}
    (h : SortedDesc l) : sortByScoreDesc l = l := by
  induction l with
  | nil => rfl
  | cons c rest ih =>
    have hc : ∀ b ∈ rest, b.score ≤ c.score := (List.pairwise_cons.mp h).1
    have hrest : SortedDesc rest := (List.pairwise_cons.mp h).2
    show insertByScore c (sortByScoreDesc rest) = c :: rest
    rw [ih hrest]
    cases rest with
    | nil => rfl
    | cons x xs =>
      simp only [insertByScore]
      rw [if_neg (not_lt.mpr (hc x (List.mem_cons_self x xs)))]

theorem legacyRetrieve_topk (st : RegulationsState) (q : String) (k : ℕ)
    (f : Option String) :
    (legacyRetrieve st q k f).chunks.length ≤ k ∧
      (legacyRetrieve st q k f).chunks.length ≤
        (legacyRetrieve st q k f).total_found := by
  constructor
  · simp [legacyRetrieve, List.length_take]
  · simp only [legacyRetrieve, List.length_take]
    exact le_trans (min_le_right _ _)
      (le_of_eq (sortByScoreDesc_length _))

/-- C5: for every query, non-negative `top_k` and filter, both providers
return at most `top_k` chunks, `total_found` is at least the number of
returned chunks, and `total_found` is exactly the pre-truncation
candidate count (the scored list for the legacy provider, the
deduplicated merged list — or the legacy count on the fallback path —
for the enhanced provider). -/
theorem topk_contract :
    (∀ (st : RegulationsState) (q : String) (k : ℕ) (f : Option String),
      (legacyRetrieve st q k f).chunks.length ≤ k ∧
      (legacyRetrieve st q k f).chunks.length ≤
        (legacyRetrieve st q k f).total_found ∧
      (legacyRetrieve st q k f).total_found =
        (legacyScoredChunks st q f).length) ∧
    (∀ (est : EnhancedState) (o : Except String (List KnowledgeChunk))
      (q : String) (k : ℕ) (f : Option String),
      (enhancedRetrieve est o q k f).chunks.length ≤ k ∧
      (enhancedRetrieve est o q k f).chunks.length ≤
        (enhancedRetrieve est o q k f).total_found ∧
      (enhancedRetrieve est o q k f).total_found =
        (if (!est.has_trees && !est.has_entities) = true then
          (legacyScoredChunks est.legacy q f).length
        else
          (_deduplicate_chunks (enhancedPreChunks est o q f)).length)) := by
  constructor
  · intro st q k f
    exact ⟨(legacyRetrieve_topk st q k f).1, (legacyRetrieve_topk st q k f).2,
      rfl⟩
  · intro est o q k f
    by_cases h : (!est.has_trees && !est.has_entities) = true
    · simp only [enhancedRetrieve, if_pos h]
      exact ⟨(legacyRetrieve_topk est.legacy q k f).1,
        (legacyRetrieve_topk est.legacy q k f).2, rfl⟩
    · rw [enhancedRetrieve, if_neg h, if_neg h]
      refine ⟨?_, ?_, rfl⟩
      · simp [List.length_take]
      · simp only [List.length_take]
        exact le_trans (min_le_right _ _)
          (le_of_eq (sortByScoreDesc_length _))

/-- C8: when neither enhanced index has loaded data, the enhanced
provider's `retrieve` returns exactly the legacy provider's result for
the same arguments, whatever the tree oracle would have answered. -/
theorem enhanced_no_data_is_legacy (est : EnhancedState)
    (o : Except String (List KnowledgeChunk)) (q : String) (k : ℕ)
    (f : Option String) (ht : est.has_trees = false)
    (he : est.has_entities = false) :
    enhancedRetrieve est o q k f = legacyRetrieve est.legacy q k f := by
  simp [enhancedRetrieve, ht, he]

/-- An `EnhancedRegulationsProvider` state with no enhanced data at
all. -/
def fallbackState : EnhancedState :=
  { legacy := { documents := [], query_mappings := [], all_keywords := [] },
    entities := [], has_trees := false, has_entities := false }

/-- Witness for C8 at a concrete state with both enhancement flags
off. -/
theorem enhanced_no_data_is_legacy_witness :
    fallbackState.has_trees = false ∧ fallbackState.has_entities = false ∧
    enhancedRetrieve fallbackState (Except.ok []) "nghỉ phép" 5 none =
      legacyRetrieve fallbackState.legacy "nghỉ phép" 5 none :=
  ⟨rfl, rfl,
    enhanced_no_data_is_legacy fallbackState (Except.ok []) "nghỉ phép" 5 none
      rfl rfl⟩

/-- C9: when the tree index is loaded but the external reasoning call
fails (the oracle returns `Except.error`), `retrieve` behaves exactly
as if the tree strategy had contributed zero chunks, and the candidate
list is precisely the entity-lookup chunks followed by the legacy
chunks; being a total function, `retrieve` returns rather than
raising. -/
theorem tree_failure_graceful (est : EnhancedState) (msg q : String)
    (k : ℕ) (f : Option String) (ht : est.has_trees = true) :
    enhancedRetrieve est (Except.error msg) q k f
      = enhancedRetrieve est (Except.ok []) q k f ∧
    enhancedPreChunks est (Except.error msg) q f
      = appendLegacy
          (if est.has_entities then _entity_lookup est q f else [])
          (legacyRetrieve est.legacy q 2 f).chunks := by
  have hpre : enhancedPreChunks est (Except.error msg) q f
      = enhancedPreChunks est (Except.ok []) q f := by
    simp [enhancedPreChunks, ht]
  constructor
  · simp [enhancedRetrieve, ht, hpre]
  · simp [enhancedPreChunks, ht]

/-- An `EnhancedRegulationsProvider` state with a loaded tree index and
nothing else. -/
def treeOnlyState : EnhancedState :=
  { legacy := { documents := [], query_mappings := [], all_keywords := [] },
    entities := [], has_trees := true, has_entities := false }

/-- Witness for C9 at a concrete state with the tree flag on and a
concrete failing oracle. -/
theorem tree_failure_graceful_witness :
    treeOnlyState.has_trees = true ∧
    (enhancedRetrieve treeOnlyState (Except.error "boom") "nghỉ phép" 5 none
      = enhancedRetrieve treeOnlyState (Except.ok []) "nghỉ phép" 5 none ∧
    enhancedPreChunks treeOnlyState (Except.error "boom") "nghỉ phép" none
      = appendLegacy
          (if treeOnlyState.has_entities then
            _entity_lookup treeOnlyState "nghỉ phép" none
          else [])
          (legacyRetrieve treeOnlyState.legacy "nghỉ phép" 2 none).chunks) :=
  ⟨rfl, tree_failure_graceful treeOnlyState "boom" "nghỉ phép" 5 none rfl⟩

theorem overlapScore_nonneg (q : String) (c : Chunk) : 0 ≤ overlapScore q c := by
  simp only [overlapScore]
  refine add_nonneg (add_nonneg (add_nonneg (add_nonneg ?_ ?_) ?_) ?_) ?_
  · split
    · exact mul_nonneg
        (le_min (div_nonneg (Nat.cast_nonneg _) (Nat.cast_nonneg _))
          zero_le_one) (by norm_num)
    · exact le_refl 0
  · split
    · exact mul_nonneg (div_nonneg (Nat.cast_nonneg _) (Nat.cast_nonneg _))
        (by norm_num)
    · exact le_refl 0
  · split
    · exact mul_nonneg
        (le_min (div_nonneg (Nat.cast_nonneg _) (Nat.cast_nonneg _))
          zero_le_one) (by norm_num)
    · exact le_refl 0
  · split
    · exact mul_nonneg
        (le_min (div_nonneg (Nat.cast_nonneg _) (Nat.cast_nonneg _))
          zero_le_one) (by norm_num)
    · exact le_refl 0
  · split <;> norm_num

theorem overlapScore_le (q : String) (c : Chunk) : overlapScore q c ≤ 2/5 := by
  simp only [overlapScore]
  refine le_trans
    (add_le_add (add_le_add (add_le_add (add_le_add ?_ ?_) ?_) ?_) ?_)
    (by norm_num :
      (1:ℚ)/10 + 1/20 + 1/10 + 1/10 + 1/20 ≤ 2/5)
  · split
    · exact le_trans
        (mul_le_mul_of_nonneg_right (min_le_right _ _) (by norm_num))
        (by norm_num)
    · norm_num
  · split
    · rename_i hne
      have hb : (0:ℚ) < ((pysplit (pyLower q)).toFinset.card : ℚ) := by
        exact_mod_cast Finset.card_pos.mpr
          (Finset.nonempty_iff_ne_empty.mpr hne)
      have hab : (((pysplit (pyLower q)).toFinset ∩
            (pysplit (pyLower c.title)).toFinset).card : ℚ) ≤
          ((pysplit (pyLower q)).toFinset.card : ℚ) := by
        exact_mod_cast Finset.card_le_card Finset.inter_subset_left
      exact le_trans
        (mul_le_mul_of_nonneg_right ((div_le_one hb).mpr hab) (by norm_num))
        (by norm_num)
    · norm_num
  · split
    · exact le_trans
        (mul_le_mul_of_nonneg_right (min_le_right _ _) (by norm_num))
        (by norm_num)
    · norm_num
  · split
    · exact le_trans
        (mul_le_mul_of_nonneg_right (min_le_right _ _) (by norm_num))
        (by norm_num)
    · norm_num
  · split <;> norm_num

theorem score_entity_bounds (q : String) (qw : Finset String) (e : Entity) :
    0 ≤ _score_entity q qw e ∧ _score_entity q qw e ≤ 1 := by
  unfold _score_entity
  constructor
  · refine le_min (add_nonneg (add_nonneg ?_ ?_) ?_) zero_le_one
    · split
      · exact mul_nonneg
          (le_min (div_nonneg (Nat.cast_nonneg _) (Nat.cast_nonneg _))
            zero_le_one) (by norm_num)
      · exact le_refl 0
    · split
      · exact le_min (mul_nonneg (Nat.cast_nonneg _) (by norm_num))
          (by norm_num)
      · exact le_refl 0
    · refine List.sum_nonneg ?_
      intro x hx
      obtain ⟨p, _, rfl⟩ := List.mem_map.mp hx
      split <;> norm_num
  · exact min_le_right _ _

/-- C4: the chunk relevance score lies in `[0, 1]` for every query,
chunk and flag combination, and the entity relevance score lies in
`[0, 1]` for every query and entity (`_score_entity` receives the
lower-cased query and its word set, as in `_entity_lookup`). -/
theorem relevance_and_entity_scores_bounded :
    (∀ (q : String) (c : Chunk) (m k t : Bool),
      0 ≤ _calculate_relevance_score q c m k t ∧
      _calculate_relevance_score q c m k t ≤ 1) ∧
    (∀ (q : String) (e : Entity),
      0 ≤ _score_entity (pyLower q) (pywords (pyLower q)) e ∧
      _score_entity (pyLower q) (pywords (pyLower q)) e ≤ 1) := by
  constructor
  · intro q c m k t
    unfold _calculate_relevance_score
    constructor
    · refine le_min
        (add_nonneg (add_nonneg (add_nonneg ?_ ?_) ?_)
          (overlapScore_nonneg q c)) zero_le_one
      · split <;> norm_num
      · split <;> norm_num
      · split <;> norm_num
    · exact min_le_right _ _
  · intro q e
    exact score_entity_bounds _ _ _

theorem min_one_lt {a b : ℚ} (hab : a < b) (hb : b ≤ 1) :
    min a 1 < min b 1 := by
  rw [min_eq_left (le_trans (le_of_lt hab) hb), min_eq_left hb]
  exact hab

/-- C3: for one query and two chunks with identical text-overlap
signals and identical document-level flags, the chunk in a curated
target section scores strictly higher than the one that is not. -/
theorem target_section_dominance (q : String) (c1 c2 : Chunk) (m k : Bool)
    (h : overlapScore q c1 = overlapScore q c2) :
    _calculate_relevance_score q c2 m k false <
      _calculate_relevance_score q c1 m k true := by
  unfold _calculate_relevance_score
  rw [h]
  have hf : (if false = true then (0.35 : ℚ) else 0) = 0 := by norm_num
  have ht : (if true = true then (0.35 : ℚ) else 0) = 0.35 := by norm_num
  rw [hf, ht]
  have hm0 : 0 ≤ (if m = true then (0.15 : ℚ) else 0) := by
    split <;> norm_num
  have hm1 : (if m = true then (0.15 : ℚ) else 0) ≤ 0.15 := by
    split <;> norm_num
  have hk0 : 0 ≤ (if k = true then (0.10 : ℚ) else 0) := by
    split <;> norm_num
  have hk1 : (if k = true then (0.10 : ℚ) else 0) ≤ 0.10 := by
    split <;> norm_num
  have ho0 : 0 ≤ overlapScore q c2 := overlapScore_nonneg q c2
  have ho1 : overlapScore q c2 ≤ 2/5 := overlapScore_le q c2
  refine min_one_lt (by linarith) (by linarith)

/-- A chunk inside a curated target section. -/
def c3ChunkA : Chunk :=
  { id := "1", title := "t", content := "x", parent := "",
    line_start := 0, line_end := 0 }

/-- A chunk with the same title and content, outside the target
section. -/
def c3ChunkB : Chunk :=
  { id := "2", title := "t", content := "x", parent := "",
    line_start := 0, line_end := 0 }

/-- Witness for C3 at two concrete equal-overlap chunks. -/
theorem target_section_dominance_witness :
    overlapScore "x" c3ChunkA = overlapScore "x" c3ChunkB ∧
    _calculate_relevance_score "x" c3ChunkB false false false <
      _calculate_relevance_score "x" c3ChunkA false false true :=
  ⟨rfl, target_section_dominance "x" c3ChunkA c3ChunkB false false rfl⟩

theorem dedupGo_append (l : List KnowledgeChunk) :
    ∀ acc, ∃ s, s.Sublist l ∧ dedupGo acc l = acc ++ s := by
  induction l with
  | nil => exact fun acc => ⟨[], List.Sublist.refl [], by simp [dedupGo]⟩
  | cons c rest ih =>
    intro acc
    by_cases h : (acc.any fun e => isDupOf c e) = true
    · obtain ⟨s, hs, he⟩ := ih acc
      exact ⟨s, hs.cons c, by simp [dedupGo, h, he]⟩
    · obtain ⟨s, hs, he⟩ := ih (acc ++ [c])
      refine ⟨c :: s, hs.cons₂ c, ?_⟩
      simp [dedupGo, h, he]

theorem dedupGo_pairwise (l : List KnowledgeChunk) :
    ∀ acc, acc.Pairwise (fun a b => isDupOf b a = false) →
    (dedupGo acc l).Pairwise (fun a b => isDupOf b a = false) := by
  induction l with
  | nil => intro acc h; simpa [dedupGo] using h
  | cons c rest ih =>
    intro acc h
    by_cases hc : (acc.any fun e => isDupOf c e) = true
    · simpa [dedupGo, hc] using ih acc h
    · have hany : (acc.any fun e => isDupOf c e) = false :=
        Bool.eq_false_iff.mpr hc
      have hforall : ∀ e ∈ acc, isDupOf c e = false := by
        intro e he
        simpa using (List.any_eq_false.mp hany) e he
      have hacc : (acc ++ [c]).Pairwise (fun a b => isDupOf b a = false) := by
        refine List.pairwise_append.mpr
          ⟨h, List.pairwise_singleton _ _, ?_⟩
        intro a ha b hb
        rw [List.mem_singleton.mp hb]
        exact hforall a ha
      simpa [dedupGo, hc] using ih (acc ++ [c]) hacc

theorem dedupGo_fixpoint (l : List KnowledgeChunk) :
    ∀ acc, (acc ++ l).Pairwise (fun a b => isDupOf b a = false) →
    dedupGo acc l = acc ++ l := by
  induction l with
  | nil => intro acc _; simp [dedupGo]
  | cons c rest ih =>
    intro acc h
    have hsplit := List.pairwise_append.mp h
    have hforall : ∀ a ∈ acc, isDupOf c a = false := by
      intro a ha
      exact hsplit.2.2 a ha c (List.mem_cons_self c rest)
    have hany : (acc.any fun e => isDupOf c e) = false := by
      apply List.any_eq_false.mpr
      intro e he
      simp [hforall e he]
    have h' : ((acc ++ [c]) ++ rest).Pairwise
        (fun a b => isDupOf b a = false) := by
      rw [List.append_assoc, List.singleton_append]
      exact h
    calc dedupGo acc (c :: rest) = dedupGo (acc ++ [c]) rest := by
          simp [dedupGo, hany]
      _ = (acc ++ [c]) ++ rest := ih (acc ++ [c]) h'
      _ = acc ++ c :: rest := by simp

/-- C6: `_deduplicate_chunks` is idempotent — applied to its own output
it returns that list unchanged, same chunks in the same order. -/
theorem deduplicate_idempotent (l : List KnowledgeChunk) :
    _deduplicate_chunks (_deduplicate_chunks l) = _deduplicate_chunks l := by
  by_cases h : l.length ≤ 1
  · simp [_deduplicate_chunks, h]
  · have hr : _deduplicate_chunks l = dedupGo [] (sortByScoreDesc l) := by
      simp [_deduplicate_chunks, h]
    obtain ⟨s, hs, he⟩ := dedupGo_append (sortByScoreDesc l) []
    have hsorted : SortedDesc (dedupGo [] (sortByScoreDesc l)) := by
      rw [he, List.nil_append]
      exact List.Pairwise.sublist hs (sortByScoreDesc_sorted l)
    have hpairs : (dedupGo [] (sortByScoreDesc l)).Pairwise
        (fun a b => isDupOf b a = false) :=
      dedupGo_pairwise (sortByScoreDesc l) [] List.Pairwise.nil
    rw [hr]
    by_cases h2 : (dedupGo [] (sortByScoreDesc l)).length ≤ 1
    · simp [_deduplicate_chunks, h2]
    · rw [_deduplicate_chunks, if_neg (by omega),
        sortByScoreDesc_sorted_id hsorted]
      simpa using dedupGo_fixpoint (dedupGo [] (sortByScoreDesc l)) []
        (by simpa using hpairs)

theorem isDupOf_words_ne_empty {c e : KnowledgeChunk}
    (h : isDupOf c e = true) : chunkWords c ≠ ∅ := by
  intro hc
  simp [isDupOf, hc] at h

theorem dedupGo_countP_empty (l : List KnowledgeChunk) :
    ∀ acc, (dedupGo acc l).countP (fun c => decide (chunkWords c = ∅)) =
      acc.countP (fun c => decide (chunkWords c = ∅)) +
        l.countP (fun c => decide (chunkWords c = ∅)) := by
  induction l with
  | nil => intro acc; simp [dedupGo]
  | cons c rest ih =>
    intro acc
    by_cases hc : (acc.any fun e => isDupOf c e) = true
    · obtain ⟨e, he, hd⟩ := List.any_eq_true.mp hc
      have hne : chunkWords c ≠ ∅ := isDupOf_words_ne_empty (by simpa using hd)
      simp [dedupGo, hc, ih, List.countP_cons, hne]
    · simp only [dedupGo, hc, if_false, Bool.false_eq_true, ite_false,
        ih (acc ++ [c]), List.countP_append, List.countP_cons,
        List.countP_nil]
      omega

/-- C10: deduplication preserves every chunk whose content has no words
(whitespace-only content): the guard `if not chunk_words or not
existing_words: continue` means such a chunk is never compared (so the
`overlap / max_len` division is never reached with a zero denominator)
and is always accepted, hence the number of word-less chunks is exactly
preserved — any number of them survive together. -/
theorem whitespace_chunks_survive_dedup (l : List KnowledgeChunk) :
    (_deduplicate_chunks l).countP (fun c => decide (chunkWords c = ∅)) =
      l.countP (fun c => decide (chunkWords c = ∅)) := by
  by_cases h : l.length ≤ 1
  · simp [_deduplicate_chunks, h]
  · have hperm := sortByScoreDesc_perm l
    rw [_deduplicate_chunks, if_neg (by omega), dedupGo_countP_empty,
      List.countP_nil, hperm.countP_eq]
    omega

/-- C7: every `KnowledgeChunk` produced by the structured entity lookup
has a score strictly greater than 0.3; entities at or below the
threshold contribute nothing (they are filtered out before a chunk is
built). -/
theorem entity_lookup_scores_above_threshold (est : EnhancedState)
    (q : String) (f : Option String) (c : KnowledgeChunk)
    (hc : c ∈ _entity_lookup est q f) : (0.3 : ℚ) < c.score := by
  unfold _entity_lookup at hc
  simp only [List.mem_flatten, List.mem_map] at hc
  obtain ⟨l, ⟨de, hde, rfl⟩, hcl⟩ := hc
  by_cases hskip : filterSkips f de.1 = true
  · simp [hskip] at hcl
  · rw [if_neg hskip] at hcl
    obtain ⟨e, he, heq⟩ := List.mem_filterMap.mp hcl
    by_cases hgt :
        (0.3 : ℚ) < _score_entity (pyLower q) (pywords (pyLower q)) e
    · rw [if_pos hgt] at heq
      cases heq
      exact hgt
    · rw [if_neg hgt] at heq
      cases heq

/-- An entity whose text and rule type match the query `"phép"`. -/
def entLeave : Entity :=
  { class_ := some "Rule", text := some "phép",
    attributes := [("rule_type", "leave")] }

/-- An `EnhancedRegulationsProvider` state with one loaded entity. -/
def entityOnlyState : EnhancedState :=
  { legacy := { documents := [], query_mappings := [], all_keywords := [] },
    entities := [("doc", [entLeave])], has_trees := false,
    has_entities := true }

/-- The chunk the entity lookup produces for `entLeave` on the query
`"phép"` (text overlap 0.3 plus rule-type bonus 0.3). -/
def entLeaveChunk : KnowledgeChunk :=
  { content := "**[Rule]** phép\n  - rule_type: leave",
    source := "Quy định (structured) - Rule",
    metadata := [("doc_id", "doc"), ("entity_class", "Rule"),
                 ("rule_type", "leave"), ("source_type", "entity_lookup")],
    score := 3/5 }

theorem entity_lookup_concrete :
    _entity_lookup entityOnlyState "phép" none = [entLeaveChunk] := by
  have hs : _score_entity (pyLower "phép") (pywords (pyLower "phép")) entLeave
      = 3/5 := by
    simp +decide [_score_entity, entLeave, keyword_bonuses, lookupD]
    norm_num
  have hfmt : _format_entity_as_context entLeave
      = "**[Rule]** phép\n  - rule_type: leave" := by decide
  have hsrc : "Quy định (structured) - " ++ "Rule"
      = "Quy định (structured) - Rule" := by decide
  have hcond : ((0.3 : ℚ) < 3/5) = True := by norm_num
  simp only [_entity_lookup, entityOnlyState, filterSkips, List.map_cons,
    List.map_nil, List.filterMap_cons, List.filterMap_nil, hs, hfmt, hsrc,
    hcond, if_true, List.flatten]
  rfl

/-- Witness for C7: a concrete produced chunk, whose score the theorem
bounds. -/
theorem entity_lookup_scores_above_threshold_witness :
    entLeaveChunk ∈ _entity_lookup entityOnlyState "phép" none ∧
    (0.3 : ℚ) < entLeaveChunk.score := by
  have hmem : entLeaveChunk ∈ _entity_lookup entityOnlyState "phép" none := by
    rw [entity_lookup_concrete]
    exact List.mem_singleton.mpr rfl
  exact ⟨hmem,
    entity_lookup_scores_above_threshold entityOnlyState "phép" none
      entLeaveChunk hmem⟩

theorem rangesOk_mono {lo' lo : ℕ} (h : lo' ≤ lo) :
    ∀ {cs : List Chunk}, rangesOk lo cs = true → rangesOk lo' cs = true := by
  intro cs
  cases cs with
  | nil => simp [rangesOk]
  | cons c rest =>
    simp only [rangesOk, Bool.and_eq_true, decide_eq_true_eq]
    rintro ⟨⟨hc1, hc2⟩, hc3⟩
    exact ⟨⟨le_trans h hc1, hc2⟩, hc3⟩

theorem emitChunk_ranges (doc_id h1 h2 : String) (cur : List String)
    (start iEnd : ℕ) (acc : List Chunk) (lo : ℕ)
    (hA : ∀ ext, rangesOk start ext = true → rangesOk lo (acc ++ ext) = true)
    (hle : cur ≠ [] → start ≤ iEnd) (hs1 : start ≤ iEnd + 1) :
    ∀ ext, rangesOk (iEnd + 1) ext = true →
      rangesOk lo (emitChunk doc_id h1 h2 cur start iEnd acc ++ ext)
        = true := by
  intro ext hext
  simp only [emitChunk]
  split
  · exact hA ext (rangesOk_mono hs1 hext)
  · rename_i hne
    have hcur : cur ≠ [] := by simpa [List.isEmpty_iff] using hne
    split
    · exact hA ext (rangesOk_mono hs1 hext)
    · rw [List.append_assoc, List.singleton_append]
      apply hA
      simp only [rangesOk, Bool.and_eq_true, decide_eq_true_eq]
      exact ⟨⟨le_refl start, hle hcur⟩, hext⟩

theorem parseChunksGo_ranges (doc_id : String) (rest : List String) :
    ∀ (i : ℕ) (h1 h2 : String) (cur : List String) (start : ℕ)
      (acc : List Chunk) (lo : ℕ),
      (∀ ext, rangesOk start ext = true →
        rangesOk lo (acc ++ ext) = true) →
      (cur ≠ [] → start < i) → start ≤ i →
      rangesOk lo (parseChunksGo doc_id rest i h1 h2 cur start acc)
        = true := by
  induction rest with
  | nil =>
    intro i h1 h2 cur start acc lo hA hcur hsi
    have := emitChunk_ranges doc_id h1 h2 cur start (i - 1) acc lo hA
      (fun hc => by have := hcur hc; omega) (by omega) []
      (by simp [rangesOk])
    simpa using this
  | cons line rest ih =>
    intro i h1 h2 cur start acc lo hA hcur hsi
    simp only [parseChunksGo]
    split
    · exact ih (i+1) _ h2 cur start acc lo hA
        (fun hc => by have := hcur hc; omega) (by omega)
    · split
      · refine ih (i+1) h1 _ [line] i
          (emitChunk doc_id h1 h2 cur start (i - 1) acc) lo ?_
          (fun _ => by omega) (by omega)
        intro ext hext
        by_cases hc : cur = []
        · rw [hc]
          simp only [emitChunk, List.isEmpty_nil, if_true]
          exact hA ext (rangesOk_mono hsi hext)
        · have hlt : start < i := hcur hc
          have h1i : i - 1 + 1 = i := by omega
          exact emitChunk_ranges doc_id h1 h2 cur start (i - 1) acc lo hA
            (fun _ => by omega) (by omega) ext (by rw [h1i]; exact hext)
      · split
        · exact ih (i+1) h1 h2 (cur ++ [line]) start acc lo hA
            (fun _ => by omega) (by omega)
        · exact ih (i+1) h1 h2 (cur ++ [line]) start acc lo hA
            (fun _ => by omega) (by omega)

/-- C2 (amended): the chunker's recorded line ranges are valid
(`line_start ≤ line_end`) and pairwise disjoint in strictly increasing
order — no line is covered twice and there are no overlaps — for every
document. -/
theorem parse_chunks_ranges_ok (content doc_id : String) :
    rangesOk 0 (_parse_chunks content doc_id) = true := by
  unfold _parse_chunks
  apply parseChunksGo_ranges
  · intro ext hext
    simpa using hext
  · intro h
    cases h rfl
  · exact le_refl 0

/-- C2 counterexample: on the document `"\n## a\nbody"` (a blank line
before the first `## ` header) the single produced chunk covers lines
1-2, leaving line 0 of the 3-line document uncovered — the chunks' line
ranges do not cover every line. -/
theorem parse_chunks_not_exhaustive :
    coversFrom 0 (_parse_chunks "\n## a\nbody" "d")
      (pySplitNl "\n## a\nbody").length = false := by decide

/-- The single chunk of the document `"alpha"`. -/
def bugChunkA : Chunk :=
  { id := "a_0", title := "", content := "alpha", parent := "",
    line_start := 0, line_end := 0 }

/-- The single chunk of the document `"alpha beta"`. -/
def bugChunkB : Chunk :=
  { id := "b_0", title := "", content := "alpha beta", parent := "",
    line_start := 0, line_end := 0 }

example : _parse_chunks "alpha" "a" = [bugChunkA] := by decide

example : _parse_chunks "alpha beta" "b" = [bugChunkB] := by decide

/-- A one-chunk document whose content matches the query `"alpha"`. -/
def bugDocA : DocumentMeta :=
  { id := "a", file := "a.md", title := "A", description := "",
    keywords := [], sections := [], effective_date := "",
    content := "alpha", chunks := [bugChunkA] }

/-- A second one-chunk document matching the same query. -/
def bugDocB : DocumentMeta :=
  { id := "b", file := "b.md", title := "B", description := "",
    keywords := [], sections := [], effective_date := "",
    content := "alpha beta", chunks := [bugChunkB] }

/-- A legacy state whose retrieval returns two chunks for `"alpha"`. -/
def bugLegacyState : RegulationsState :=
  { documents := [("a", bugDocA), ("b", bugDocB)],
    query_mappings := [], all_keywords := [] }

/-- First legacy candidate for `"alpha"` (content word overlap 0.10 +
exact phrase 0.05). -/
def bugKcA : KnowledgeChunk :=
  { content := "alpha", source := "A - ",
    metadata := [("doc_id", "a"), ("chunk_id", "a_0"), ("title", ""),
                 ("parent", ""), ("effective_date", "")],
    score := 3/20 }

/-- Second legacy candidate for `"alpha"`. -/
def bugKcB : KnowledgeChunk :=
  { content := "alpha beta", source := "B - ",
    metadata := [("doc_id", "b"), ("chunk_id", "b_0"), ("title", ""),
                 ("parent", ""), ("effective_date", "")],
    score := 3/20 }

/-- An entity matching nothing in the query `"alpha"`. -/
def bugEntity : Entity :=
  { class_ := some "Z", text := some "zzz", attributes := [] }

/-- An enhanced state whose entity index is loaded but yields no
candidate for `"alpha"`, with no tree index. -/
def bugState : EnhancedState :=
  { legacy := bugLegacyState, entities := [("a", [bugEntity])],
    has_trees := false, has_entities := true }

/-- `bugKcB` after the 0.7 scaling. -/
def bugKcB7 : KnowledgeChunk := { bugKcB with score := 3/20 * (0.7 : ℚ) }

/-- C1 evaluated at the failing input: with the entity index loaded but
contributing zero candidates and no tree index, `retrieve("alpha", 5)`
still multiplies the second legacy chunk's score by 0.7 (the first
legacy chunk was already in `all_chunks` when the second was appended),
returning scores `[0.15, 0.15 * 0.7]` although the enhanced strategies
produced nothing. -/
theorem legacy_scaling_contradicts_comment :
    _entity_lookup bugState "alpha" none = [] ∧
    bugState.has_trees = false ∧
    (enhancedRetrieve bugState (Except.ok []) "alpha" 5 none).chunks.map
      KnowledgeChunk.score = [3/20, 3/20 * 0.7] := by
  have hsc : legacyScoredChunks bugLegacyState "alpha" none
      = [bugKcA, bugKcB] := by
    have hca : _calculate_relevance_score (pyLower "alpha") bugChunkA false
        false false = 3/20 := by
      simp +decide [_calculate_relevance_score, overlapScore, bugChunkA]
      norm_num [show ((pysplit (pyLower (pyLower "alpha"))).toFinset ∩
          (pysplit (pyLower "")).toFinset).card = 0 from by decide,
        show ((pysplit (pyLower (pyLower "alpha"))).toFinset ∩
          (pysplit (pyLower "alpha")).toFinset).card = 1 from by decide,
        show (pysplit (pyLower (pyLower "alpha"))).toFinset.card = 1 from by
          decide]
    have hcb : _calculate_relevance_score (pyLower "alpha") bugChunkB false
        false false = 3/20 := by
      simp +decide [_calculate_relevance_score, overlapScore, bugChunkB]
      norm_num [show ((pysplit (pyLower (pyLower "alpha"))).toFinset ∩
          (pysplit (pyLower "")).toFinset).card = 0 from by decide,
        show ((pysplit (pyLower (pyLower "alpha"))).toFinset ∩
          (pysplit (pyLower "alpha beta")).toFinset).card = 1 from by decide,
        show (pysplit (pyLower (pyLower "alpha"))).toFinset.card = 1 from by
          decide]
    have hms : _get_mapped_sections bugLegacyState (pyLower "alpha") = [] := by
      decide
    have hkd : _get_keyword_matched_documents bugLegacyState (pyLower "alpha")
        = [] := by decide
    have hcond : ((0 : ℚ) < 3/20) = True := by norm_num
    simp only [legacyScoredChunks]
    simp only [hms, hkd]
    simp +decide [bugLegacyState, bugDocA, bugDocB, lookupD, dedupFirst,
      filterSkips, _chunk_matches_section, hca, hcb, hcond, bugKcA, bugKcB]
  have hel : _entity_lookup bugState "alpha" none = [] := by
    have hze : _score_entity (pyLower "alpha") (pywords (pyLower "alpha"))
        bugEntity = 0 := by
      simp +decide [_score_entity, bugEntity, keyword_bonuses, lookupD]
    have hc3 : ¬ ((0.3 : ℚ) < 0) := by norm_num
    simp only [_entity_lookup, bugState]
    simp +decide [filterSkips, hze, hc3]
  have hsortAB : sortByScoreDesc [bugKcA, bugKcB] = [bugKcA, bugKcB] := by
    have : (bugKcA.score < bugKcB.score) = False := by
      norm_num [bugKcA, bugKcB]
    simp [sortByScoreDesc, insertByScore, this]
  have hdup : isDupOf bugKcB7 bugKcA = false := by
    simp only [isDupOf, chunkWords, bugKcB7, bugKcB, bugKcA]
    simp +decide
    norm_num [show (pywords (pyLower "alpha beta") ∩
        pywords (pyLower "alpha")).card = 1 from by decide,
      show (pywords (pyLower "alpha beta")).card = 2 from by decide,
      show (pywords (pyLower "alpha")).card = 1 from by decide]
  have hsortB7 : sortByScoreDesc [bugKcA, bugKcB7] = [bugKcA, bugKcB7] := by
    have : (bugKcA.score < bugKcB7.score) = False := by
      norm_num [bugKcA, bugKcB7, bugKcB]
    simp [sortByScoreDesc, insertByScore, this]
  have hlr2 : legacyRetrieve bugLegacyState "alpha" 2 none =
      { chunks := [bugKcA, bugKcB], query := "alpha", total_found := 2 } := by
    simp [legacyRetrieve, hsc, hsortAB]
  have happ : appendLegacy [] [bugKcA, bugKcB] = [bugKcA, bugKcB7] := by
    simp [appendLegacy, bugKcB7, bugKcB]
  have hded : _deduplicate_chunks [bugKcA, bugKcB7] = [bugKcA, bugKcB7] := by
    simp [_deduplicate_chunks, hsortB7, dedupGo, hdup]
  refine ⟨hel, rfl, ?_⟩
  simp [enhancedRetrieve, enhancedPreChunks, hel, hlr2, happ, hded, hsortB7,
    show bugState.has_trees = false from rfl,
    show bugState.has_entities = true from rfl,
    show bugState.legacy = bugLegacyState from rfl,
    show bugKcA.score = 3/20 from rfl,
    show bugKcB7.score = 3/20 * 0.7 from rfl]
